import Mathlib

/-!
Verification development for the openclaw-cli session-log tailer.

The Python sources (src/openclaw_cli/parse.py, src/openclaw_cli/commands/tail.py)
are shallowly embedded below: Python strings become lists of characters, JSON
values become an inductive type, fallible code returns `Except`/`Option`, and the
ambient wall clock is passed explicitly.  Uncaught Python exceptions are
modelled as `Except.error`.
-/

namespace OpenClawCLI

/-- Python `str` values are modelled as lists of characters (one character per
code point; the byte/character distinction of the original code is flagged where
it matters). -/
abbrev Chars := List Char

/-- Whitespace test used by Python `str.strip()` (the ASCII whitespace
characters: space, tab, newline, carriage return, vertical tab, form feed). -/
def isPyWs (c : Char) : Bool :=
  c = ' ' || c = '\t' || c = '\n' || c = '\r' || c = Char.ofNat 11 || c = Char.ofNat 12

/-- Models Python `str.strip()`: remove leading and trailing whitespace. -/
def pyStrip (s : Chars) : Chars :=
  ((s.dropWhile isPyWs).reverse.dropWhile isPyWs).reverse

/-- Tests whether the first list is a leading segment of the second, as Python
`str.startswith` does. -/
def startsWithCh : Chars → Chars → Bool
  | [], _ => true
  | _ :: _, [] => false
  | a :: as, b :: bs => a = b && startsWithCh as bs

/-- Models Python `str.split(sep)` for a one-character separator: split on every
occurrence, keeping empty pieces (splitting the empty string gives one empty
piece, as in Python). -/
def splitOnCh (sep : Char) (s : Chars) : List Chars :=
  s.foldr
    (fun c acc =>
      match acc with
      | [] => [[c]]
      | a :: as => if c = sep then [] :: a :: as else (c :: a) :: as)
    [[]]

/-- Models the Python negative slice `xs[-n:]`; for `n = 0` Python returns the
whole list, since `xs[-0:]` is `xs[0:]`. -/
def pyNegSlice (n : Nat) (xs : List α) : List α :=
  if n = 0 then xs else xs.drop (xs.length - n)

/-- Worker for `pyReplace`, driven by a character-count fuel. -/
def pyReplaceGo (f r : Chars) : Nat → Chars → Chars
  | 0, s => s
  | _ + 1, [] => []
  | fuel + 1, c :: rest =>
    if !f.isEmpty && startsWithCh f (c :: rest) then
      r ++ pyReplaceGo f r fuel ((c :: rest).drop f.length)
    else
      c :: pyReplaceGo f r fuel rest

/-- Models Python `str.replace(f, r)`: replace all non-overlapping occurrences,
scanning left to right. -/
def pyReplace (s f r : Chars) : Chars := pyReplaceGo f r s.length s

/-- Worker for `pyFind`. -/
def pyFindGo (needle : Chars) : Chars → Nat → Option Nat
  | [], i => if startsWithCh needle [] then some i else none
  | c :: t, i => if startsWithCh needle (c :: t) then some i else pyFindGo needle t (i + 1)

/-- Models Python `str.find(sub)`: smallest index at which `sub` occurs, with
`none` standing for CPython's `-1`. -/
def pyFind (s sub : Chars) : Option Nat := pyFindGo sub s 0

/-- JSON values as decoded by `json.loads`.  Numeric literals are modelled as
integers: no claim exercises fractional or exponent forms, and the decoder
below rejects them, degrading to a decode failure.  The same boundary applies
to the `NaN`/`Infinity` extensions and to leading-zero integers, which no
claim input contains. -/
inductive JValue where
  | jnull
  | jbool (b : Bool)
  | jnum (n : Int)
  | jstr (s : Chars)
  | jarr (elems : List JValue)
  | jobj (kvs : List (Chars × JValue))

/-- Default JSON value, for typeclass search only. -/
instance : Inhabited JValue := ⟨JValue.jnull⟩

/-- Uncaught Python exception kinds that the embedded code can raise. -/
inductive PyError where
  | attributeError
  | typeError
deriving DecidableEq

/-- The opening brace character. -/
def obrace : Char := Char.ofNat 123

/-- The closing brace character. -/
def cbrace : Char := Char.ofNat 125

/-- JSON inter-token whitespace (exactly the four characters CPython's decoder
skips). -/
def jsonWs (c : Char) : Bool := c = ' ' || c = '\t' || c = '\n' || c = '\r'

/-- Skip JSON whitespace. -/
def skipWs (s : Chars) : Chars := s.dropWhile jsonWs

/-- Value of one hexadecimal digit. -/
def hexVal (c : Char) : Option Nat :=
  if c.isDigit then some (c.toNat - 48)
  else if 97 ≤ c.toNat && c.toNat ≤ 102 then some (c.toNat - 87)
  else if 65 ≤ c.toNat && c.toNat ≤ 70 then some (c.toNat - 55)
  else none

/-- Single-character JSON string escapes. -/
def escCh (e : Char) : Option Char :=
  if e = '"' then some '"'
  else if e = '\\' then some '\\'
  else if e = '/' then some '/'
  else if e = 'b' then some (Char.ofNat 8)
  else if e = 'f' then some (Char.ofNat 12)
  else if e = 'n' then some '\n'
  else if e = 'r' then some '\r'
  else if e = 't' then some '\t'
  else none

/-- Decode the body of a JSON string (after the opening quote), returning the
decoded characters and the remainder after the closing quote. -/
def jsonStringGo : Nat → Chars → Option (Chars × Chars)
  | 0, _ => none
  | _ + 1, [] => none
  | fuel + 1, c :: rest =>
    if c = '"' then some ([], rest)
    else if c = '\\' then
      match rest with
      | [] => none
      | e :: rest2 =>
        if e = 'u' then
          match rest2 with
          | h1 :: h2 :: h3 :: h4 :: rest3 =>
            match hexVal h1, hexVal h2, hexVal h3, hexVal h4 with
            | some a, some b, some c2, some d =>
              (jsonStringGo fuel rest3).map
                (fun p => (Char.ofNat (((a * 16 + b) * 16 + c2) * 16 + d) :: p.1, p.2))
            | _, _, _, _ => none
          | _ => none
        else
          match escCh e with
          | some ec => (jsonStringGo fuel rest2).map (fun p => (ec :: p.1, p.2))
          | none => none
    else if c.toNat < 32 then none
    else (jsonStringGo fuel rest).map (fun p => (c :: p.1, p.2))

/-- Decode a JSON integer literal. -/
def jsonNumber (s : Chars) : Option (Int × Chars) :=
  let (neg, s1) := match s with
    | '-' :: t => (true, t)
    | _ => (false, s)
  let ds := s1.takeWhile Char.isDigit
  let rest := s1.dropWhile Char.isDigit
  if ds.isEmpty then none
  else
    let v : Nat := ds.foldl (fun a c => a * 10 + (c.toNat - 48)) 0
    some (if neg then -(v : Int) else (v : Int), rest)

/-- Insert a key into a decoded JSON object with CPython `dict` semantics: an
existing key keeps its position and gets the new value, a new key is appended. -/
def dictInsert : List (Chars × JValue) → Chars → JValue → List (Chars × JValue)
  | [], k, v => [(k, v)]
  | (k', v') :: rest, k, v =>
    if k' = k then (k', v) :: rest else (k', v') :: dictInsert rest k v

/-- Models Python `dict.get(k)` (no default): first (unique) binding of `k`. -/
def dictGet : List (Chars × JValue) → Chars → Option JValue
  | [], _ => none
  | (k', v') :: rest, k => if k' = k then some v' else dictGet rest k

mutual

/-- Decode one JSON value, returning it with the unconsumed remainder; fuel is
bounded by the input length. -/
def jsonValue : Nat → Chars → Option (JValue × Chars)
  | 0, _ => none
  | fuel + 1, s =>
    match skipWs s with
    | [] => none
    | c :: rest =>
      if c = '"' then
        (jsonStringGo (rest.length + 1) rest).map (fun p => (JValue.jstr p.1, p.2))
      else if c = obrace then jsonMembers fuel rest []
      else if c = '[' then jsonElems fuel rest []
      else if startsWithCh "null".data (c :: rest) then
        some (JValue.jnull, (c :: rest).drop 4)
      else if startsWithCh "true".data (c :: rest) then
        some (JValue.jbool true, (c :: rest).drop 4)
      else if startsWithCh "false".data (c :: rest) then
        some (JValue.jbool false, (c :: rest).drop 5)
      else (jsonNumber (c :: rest)).map (fun p => (JValue.jnum p.1, p.2))

/-- Decode the members of a JSON object after the opening brace. -/
def jsonMembers : Nat → Chars → List (Chars × JValue) → Option (JValue × Chars)
  | 0, _, _ => none
  | fuel + 1, s, acc =>
    match skipWs s with
    | [] => none
    | c :: rest =>
      if c = cbrace && acc.isEmpty then some (JValue.jobj [], rest)
      else if c = '"' then
        match jsonStringGo (rest.length + 1) rest with
        | none => none
        | some (k, rest2) =>
          match skipWs rest2 with
          | ':' :: rest3 =>
            match jsonValue fuel rest3 with
            | none => none
            | some (v, rest4) =>
              match skipWs rest4 with
              | ',' :: rest5 => jsonMembers fuel rest5 (dictInsert acc k v)
              | c2 :: rest5 =>
                if c2 = cbrace then some (JValue.jobj (dictInsert acc k v), rest5) else none
              | [] => none
          | _ => none
      else none

/-- Decode the elements of a JSON array after the opening bracket. -/
def jsonElems : Nat → Chars → List JValue → Option (JValue × Chars)
  | 0, _, _ => none
  | fuel + 1, s, acc =>
    match skipWs s with
    | [] => none
    | c :: rest =>
      if c = ']' && acc.isEmpty then some (JValue.jarr [], rest)
      else
        match jsonValue fuel (c :: rest) with
        | none => none
        | some (v, rest2) =>
          match skipWs rest2 with
          | ',' :: rest3 => jsonElems fuel rest3 (acc ++ [v])
          | ']' :: rest3 => some (JValue.jarr (acc ++ [v]), rest3)
          | _ => none

end

/-- Models `json.loads` on one line: decode a single JSON document, requiring
the whole input to be consumed (modulo trailing whitespace); `none` models a
raised and caught `JSONDecodeError`. -/
def json_loads (line : Chars) : Option JValue :=
  match jsonValue (line.length + 1) line with
  | some (v, rest) => if (skipWs rest).isEmpty then some v else none
  | none => none

/-- Models a CPython `datetime` value: calendar fields plus an optional fixed
utc offset in minutes (`none` models a naive datetime, i.e. `tzinfo is None`). -/
structure PyDatetime where
  year : Nat
  month : Nat
  day : Nat
  hour : Nat
  minute : Nat
  second : Nat
  usec : Nat
  tz : Option Int
deriving DecidableEq

/-- Read exactly `n` decimal digits, accumulating their value. -/
def parseNdGo : Nat → Nat → Chars → Option (Nat × Chars)
  | 0, acc, s => some (acc, s)
  | n + 1, acc, s =>
    match s with
    | c :: t => if c.isDigit then parseNdGo n (acc * 10 + (c.toNat - 48)) t else none
    | [] => none

/-- Require one specific character. -/
def expectCh (c : Char) : Chars → Option Chars
  | x :: t => if x = c then some t else none
  | [] => none

/-- Optional fractional-second part: a dot followed by one to six digits,
scaled to microseconds. -/
def parseFrac (s : Chars) : Option (Nat × Chars) :=
  match s with
  | '.' :: t =>
    let ds := t.takeWhile Char.isDigit
    if ds.isEmpty || 6 < ds.length then none
    else
      let v := ds.foldl (fun a c => a * 10 + (c.toNat - 48)) 0
      some (v * 10 ^ (6 - ds.length), t.drop ds.length)
  | _ => some (0, s)

/-- Parse the `YYYY-MM-DD` part of an ISO date.  Together with the helpers
below this models `datetime.fromisoformat` on the ISO-8601 shapes the session
logs use: a date, optionally followed by a `T`- or space-separated `HH:MM:SS`
time with optional fractional seconds and an optional `+HH:MM`/`-HH:MM`
offset.  A string with no offset suffix yields a naive value (`tz = none`),
exactly as CPython returns a datetime with `tzinfo is None`; any other shape
fails, which the caller turns into a raised-and-caught `ValueError`. -/
def isoDate (s : Chars) : Option (Nat × Nat × Nat × Chars) :=
  match parseNdGo 4 0 s with
  | none => none
  | some (y, s1) =>
    match expectCh '-' s1 with
    | none => none
    | some s2 =>
      match parseNdGo 2 0 s2 with
      | none => none
      | some (mo, s3) =>
        match expectCh '-' s3 with
        | none => none
        | some s4 =>
          match parseNdGo 2 0 s4 with
          | none => none
          | some (d, s5) =>
            if mo < 1 || 12 < mo || d < 1 || 31 < d then none
            else some (y, mo, d, s5)

/-- Parse the `HH:MM:SS[.ffffff]` part of an ISO time. -/
def isoTime (s : Chars) : Option (Nat × Nat × Nat × Nat × Chars) :=
  match parseNdGo 2 0 s with
  | none => none
  | some (h, s7) =>
    match expectCh ':' s7 with
    | none => none
    | some s8 =>
      match parseNdGo 2 0 s8 with
      | none => none
      | some (mi, s9) =>
        match expectCh ':' s9 with
        | none => none
        | some s10 =>
          match parseNdGo 2 0 s10 with
          | none => none
          | some (sec, s11) =>
            if 23 < h || 59 < mi || 59 < sec then none
            else
              match parseFrac s11 with
              | none => none
              | some (us, s12) => some (h, mi, sec, us, s12)

/-- Parse a trailing `+HH:MM` or `-HH:MM` utc offset, in minutes. -/
def isoOffset (sgn : Char) (s13 : Chars) : Option Int :=
  if sgn = '+' || sgn = '-' then
    match parseNdGo 2 0 s13 with
    | none => none
    | some (oh, s14) =>
      match expectCh ':' s14 with
      | none => none
      | some s15 =>
        match parseNdGo 2 0 s15 with
        | none => none
        | some (om, s16) =>
          if 23 < oh || 59 < om || !s16.isEmpty then none
          else
            let off : Int := ((oh * 60 + om : Nat) : Int)
            some (if sgn = '-' then -off else off)
  else none

/-- Assembles `datetime.fromisoformat` from the pieces above. -/
def datetime_fromisoformat (s : Chars) : Option PyDatetime :=
  match isoDate s with
  | none => none
  | some (y, mo, d, s5) =>
    match s5 with
    | [] => some ⟨y, mo, d, 0, 0, 0, 0, none⟩
    | sep :: s6 =>
      if sep = 'T' || sep = ' ' then
        match isoTime s6 with
        | none => none
        | some (h, mi, sec, us, s12) =>
          match s12 with
          | [] => some ⟨y, mo, d, h, mi, sec, us, none⟩
          | sgn :: s13 =>
            match isoOffset sgn s13 with
            | none => none
            | some off => some ⟨y, mo, d, h, mi, sec, us, some off⟩
      else none

/-- The record produced for one accepted line (`ParsedMessage` in parse.py).
The optional fields hold whatever JSON value `dict.get` returned, as the
dynamically typed original does. -/
structure ParsedMessage where
  timestamp : PyDatetime
  role : Chars
  agent : Chars
  session_id : Chars
  model : Option JValue
  provider : Option JValue
  text : Chars
  cost : Option JValue
  stop_reason : Option JValue
  raw : JValue

/-- Python truthiness of a decoded JSON value (`bool(x)`). -/
def pyTruthy : JValue → Bool
  | .jnull => false
  | .jbool b => b
  | .jnum n => n != 0
  | .jstr s => !s.isEmpty
  | .jarr xs => !xs.isEmpty
  | .jobj kvs => !kvs.isEmpty

/-- Python iteration over a decoded JSON value, as `for block in content` does:
a list yields its elements, a string yields its characters as one-character
strings, a dict yields its keys, anything else raises `TypeError`. -/
def pyIterJ : JValue → Except PyError (List JValue)
  | .jarr xs => .ok xs
  | .jstr s => .ok (s.map (fun c => JValue.jstr [c]))
  | .jobj kvs => .ok (kvs.map (fun kv => JValue.jstr kv.1))
  | _ => .error .typeError

/-- The `block.get("type") == "text"` test of parse.py line 48. -/
def isTextBlock (bk : List (Chars × JValue)) : Bool :=
  match dictGet bk "type".data with
  | some (.jstr t) => decide (t = "text".data)
  | _ => false

/-- The contributing pieces collected by the `for block in content` loop of
parse.py lines 47-51: a dict block of type `text` contributes its `text` field
(default the empty string), a plain-string block contributes itself, anything
else is skipped. -/
def contentParts : List JValue → List JValue
  | [] => []
  | b :: bs =>
    match b with
    | .jobj bk =>
      if isTextBlock bk then ((dictGet bk "text".data).getD (JValue.jstr [])) :: contentParts bs
      else contentParts bs
    | .jstr s => JValue.jstr s :: contentParts bs
    | _ => contentParts bs

/-- Join pieces with newline separators, as `"\n".join` does. -/
def joinNl (ps : List Chars) : Chars := List.intercalate ['\n'] ps

/-- Require every piece to be a string, as `str.join` does. -/
def partsStrs : List JValue → Option (List Chars)
  | [] => some []
  | .jstr s :: rest => (partsStrs rest).map (s :: ·)
  | _ :: _ => none

/-- Models `"\n".join(text_parts)`: raises `TypeError` when some collected
piece is not a string. -/
def joinParts (parts : List JValue) : Except PyError Chars :=
  match partsStrs parts with
  | some ss => .ok (joinNl ss)
  | none => .error .typeError

/-- The `role in ("user", "assistant")` test for a string role. -/
def roleStrOk (r : Chars) : Bool := decide (r = "user".data) || decide (r = "assistant".data)

/-- The `obj.get("type") != "message"` test of parse.py line 34 (negated):
true exactly when the `type` member is the string `message`. -/
def isMsgType (kvs : List (Chars × JValue)) : Bool :=
  match dictGet kvs "type".data with
  | some (.jstr t) => decide (t = "message".data)
  | _ => false

/-- Embedding of `parse_line` (parse.py lines 27-80).  Python strings are
character lists; `now` stands for the value `datetime.now(timezone.utc)` would
return at the fallback of lines 59-62; an uncaught exception (the code only
guards `json.loads` and the timestamp conversion) is `Except.error`. -/
def parse_line (now : PyDatetime) (line agent session_id : Chars) :
    Except PyError (Option ParsedMessage) :=
  match json_loads line with
  | none => .ok none
  | some obj =>
    match obj with
    | .jobj okvs =>
      if isMsgType okvs then
        match (dictGet okvs "message".data).getD (JValue.jobj []) with
        | .jobj mkvs =>
          match (dictGet mkvs "role".data).getD (JValue.jstr []) with
          | .jstr role =>
            if roleStrOk role then
              match pyIterJ ((dictGet mkvs "content".data).getD (JValue.jarr [])) with
              | .error e => .error e
              | .ok blocks =>
                match joinParts (contentParts blocks) with
                | .error e => .error e
                | .ok joined =>
                  if (pyStrip joined).isEmpty then .ok none
                  else
                    match (match dictGet mkvs "usage".data with
                           | none => Except.ok ([] : List (Chars × JValue))
                           | some (.jobj u) => Except.ok u
                           | some _ => Except.error PyError.attributeError :
                             Except PyError (List (Chars × JValue))) with
                    | .error e => .error e
                    | .ok ukvs =>
                      match (if pyTruthy ((dictGet ukvs "cost".data).getD (JValue.jobj [])) then
                               match (dictGet ukvs "cost".data).getD (JValue.jobj []) with
                               | .jobj ck => Except.ok (dictGet ck "total".data)
                               | _ => Except.error PyError.attributeError
                             else Except.ok none : Except PyError (Option JValue)) with
                      | .error e => .error e
                      | .ok cost =>
                        .ok (some {
                          timestamp :=
                            match dictGet okvs "timestamp".data with
                            | some (.jstr tsStr) =>
                              (datetime_fromisoformat
                                (pyReplace tsStr "Z".data "+00:00".data)).getD now
                            | _ => now
                          role := role
                          agent := agent
                          session_id := session_id
                          model := dictGet mkvs "model".data
                          provider := dictGet mkvs "provider".data
                          text := pyStrip joined
                          cost := cost
                          stop_reason := dictGet mkvs "stopReason".data
                          raw := obj })
            else .ok none
          | _ => .ok none
        | _ => .error .attributeError
      else .ok none
    | _ => .error .attributeError

/-- Models `extract_session_id` (parse.py lines 83-86) on a file name: the
segment of the name before the first dot (`name.split(".")[0]`). -/
def extract_session_id (name : Chars) : Chars :=
  (splitOnCh '.' name).headD []

/-- Models `fh.readline()` for a text-mode file whose full contents are
`content` with the read position at `cursor`: the characters up to and
including the next newline, or up to end of file when no newline follows —
including a final unterminated fragment, exactly as CPython returns it. -/
def readline (content : Chars) (cursor : Nat) : Chars :=
  let rest := content.drop cursor
  match rest.findIdx? (· = '\n') with
  | some i => rest.take (i + 1)
  | none => rest

/-- One full drain of a source by the tail loop (tail.py lines 137-147): call
`readline` until it returns empty, strip each line, skip blanks, parse the
rest, collect emitted records in order and advance the cursor.  The loop is
driven by a fuel that the wrapper `drainSource` makes sufficient. -/
def drainGo (now : PyDatetime) (content agent sid : Chars) :
    Nat → Nat → Except PyError (List ParsedMessage × Nat)
  | 0, cursor => .ok ([], cursor)
  | fuel + 1, cursor =>
    let line := readline content cursor
    if line.isEmpty then .ok ([], cursor)
    else
      let cursor' := cursor + line.length
      let stripped := pyStrip line
      if stripped.isEmpty then drainGo now content agent sid fuel cursor'
      else
        match parse_line now stripped agent sid with
        | .error e => .error e
        | .ok none => drainGo now content agent sid fuel cursor'
        | .ok (some m) =>
          match drainGo now content agent sid fuel cursor' with
          | .error e => .error e
          | .ok (ms, c') => .ok (m :: ms, c')

/-- Drain with sufficient fuel: each iteration consumes at least one character
while anything remains, so remaining-plus-one iterations reach the empty
read. -/
def drainSource (now : PyDatetime) (content agent sid : Chars) (cursor : Nat) :
    Except PyError (List ParsedMessage × Nat) :=
  drainGo now content agent sid (content.length + 1 - cursor) cursor

/-- Number of `readline` segments from `cursor` on (complete lines plus a
final unterminated fragment if any), with the same fuel pattern as the drain
loop. -/
def segsGo (content : Chars) : Nat → Nat → Nat
  | 0, _ => 0
  | fuel + 1, cursor =>
    let line := readline content cursor
    if line.isEmpty then 0 else 1 + segsGo content fuel (cursor + line.length)

/-- Number of `readline` segments of a whole file. -/
def segsOf (content : Chars) : Nat := segsGo content (content.length + 1) 0

/-- One watched source of the registry (`self._files[path]` together with the
handle's read position).  `handle` numbers `open` calls, so an unchanged
handle value means the path was never reopened. -/
structure Source where
  handle : Nat
  agent : Chars
  session_id : Chars
  cursor : Nat
deriving DecidableEq

/-- Registry state of `SessionTailer`: insertion-ordered map from path to
source, plus the next handle number. -/
structure TailState where
  files : List (Chars × Source)
  nextHandle : Nat
deriving DecidableEq

/-- Default source, for typeclass search only. -/
instance : Inhabited Source := ⟨⟨0, [], [], 0⟩⟩

/-- First binding of a path in the registry. -/
def lookupPath : List (Chars × Source) → Chars → Option Source
  | [], _ => none
  | (p', s) :: rest, p => if p' = p then some s else lookupPath rest p

/-- Registration of one candidate path by `_scan_files` (tail.py lines
100-109): a known path is left untouched; an unknown one is opened (size
`none` models a swallowed `OSError`), its cursor seeked to current end of
file, and appended to the registry. -/
def registerOne (fsSize : Chars → Option Nat) (agent p : Chars) (st : TailState) : TailState :=
  match lookupPath st.files p with
  | some _ => st
  | none =>
    match fsSize p with
    | none => st
    | some sz =>
      { files := st.files ++ [(p, ⟨st.nextHandle, agent, extract_session_id p, sz⟩)],
        nextHandle := st.nextHandle + 1 }

/-- Models one `_scan_files` pass over the candidate enumeration: each
candidate is a pair of owning agent and path, processed in order. -/
def scan_files (fsSize : Chars → Option Nat) (cands : List (Chars × Chars))
    (st : TailState) : TailState :=
  cands.foldl (fun st c => registerOne fsSize c.1 c.2 st) st

/-- Embedding of `_tail_lines` (tail.py lines 260-273): seek to at most
`max_lines * 2048` bytes before end of file, read to the end, strip the
decoded text, split on newlines and keep the last `max_lines` entries.  Bytes
are modelled as characters. -/
def tail_lines (content : Chars) (max_lines : Nat) : List Chars :=
  let size := content.length
  let chunk := min size (max_lines * 2048)
  let data := content.drop (size - chunk)
  let lines := splitOnCh '\n' (pyStrip data)
  pyNegSlice max_lines lines

/-- One source file visible to the backfill reader: owning agent, file name
and full contents. -/
structure SrcFile where
  agent : Chars
  name : Chars
  content : Chars

/-- Parse a list of candidate lines, keeping the records of the lines that
parse, in order; a raised exception propagates, since `_show_last_n` has no
guard around `parse_line`. -/
def parseLines (now : PyDatetime) (agent sid : Chars) :
    List Chars → Except PyError (List ParsedMessage)
  | [] => .ok []
  | l :: ls =>
    match parse_line now l agent sid with
    | .error e => .error e
    | .ok none => parseLines now agent sid ls
    | .ok (some m) =>
      match parseLines now agent sid ls with
      | .error e => .error e
      | .ok ms => .ok (m :: ms)

/-- Days from the civil epoch for year at least 1 (Howard Hinnant's civil
calendar formula, restricted to the positive range so that all divisions are
on nonnegative numbers). -/
def daysFromCivil (y mo d : Nat) : Nat :=
  let y' := if mo ≤ 2 then y - 1 else y
  let era := y' / 400
  let yoe := y' - era * 400
  let mm := if 2 < mo then mo - 3 else mo + 9
  let doy := (153 * mm + 2) / 5 + d - 1
  let doe := yoe * 365 + yoe / 4 - yoe / 100 + doy
  era * 146097 + doe

/-- Sort key of `all_messages.sort(key=lambda m: m.timestamp)`: the instant in
microseconds, an aware value shifted to utc by its offset, a naive value keyed
by its wall-clock fields.  CPython would raise when naive and aware datetimes
meet in one sort, a case no claim exercises; the model totalises it. -/
def tsKey (t : PyDatetime) : Int :=
  let days : Int := (daysFromCivil t.year t.month t.day : Int)
  let mins : Int := (days * 24 + (t.hour : Int)) * 60 + (t.minute : Int) - t.tz.getD 0
  (mins * 60 + (t.second : Int)) * 1000000 + (t.usec : Int)

/-- Comparison used to sort backfill records ascending by timestamp. -/
def tsLe (a b : ParsedMessage) : Bool := decide (tsKey a.timestamp ≤ tsKey b.timestamp)

/-- Stable insertion of one element into an ascending list: the new element
goes before the first element it is not strictly after, so that elements
inserted earlier keep their relative order among equal keys. -/
def insSorted (le : α → α → Bool) (x : α) : List α → List α
  | [] => [x]
  | y :: ys => if le x y then x :: y :: ys else y :: insSorted le x ys

/-- Stable ascending sort, folding `insSorted` from the right; this reproduces
the unique stable ascending reordering that Python `list.sort` produces. -/
def pySort (le : α → α → Bool) (l : List α) : List α :=
  l.foldr (insSorted le) []

/-- Collect the backfill records of every file, in file order (tail.py lines
238-249): for each file the last `n * 3` raw lines are read with `_tail_lines`
and parsed. -/
def collectMsgs (now : PyDatetime) (n : Nat) :
    List SrcFile → Except PyError (List ParsedMessage)
  | [] => .ok []
  | f :: fs =>
    match parseLines now f.agent (extract_session_id f.name)
        (tail_lines f.content (n * 3)) with
    | .error e => .error e
    | .ok ms =>
      match collectMsgs now n fs with
      | .error e => .error e
      | .ok ms' => .ok (ms ++ ms')

/-- Embedding of `_show_last_n` (tail.py lines 234-257) up to rendering: the
returned list is exactly the sequence of records the final loop prints. -/
def show_last_n (now : PyDatetime) (files : List SrcFile) (n : Nat) :
    Except PyError (List ParsedMessage) :=
  match collectMsgs now n files with
  | .error e => .error e
  | .ok all => .ok (pyNegSlice n (pySort tsLe all))

/-- The user-message marker searched by `format_message` (tail.py line 62). -/
def userMarker : Chars := "[User Message]".data

/-- The text transformation of `format_message` lines 58-65, before newline
collapsing and width truncation: for a user message whose text starts with a
bracket, cut everything up to and including the first occurrence of the marker
and strip the remainder; otherwise leave the text unchanged. -/
def strip_user_marker (role text : Chars) : Chars :=
  if role = "user".data && startsWithCh ['['] text then
    match pyFind text userMarker with
    | some idx => pyStrip (text.drop (idx + userMarker.length))
    | none => text
  else text

/-- String content of a JSON value (empty for non-strings); used only to state
properties of runs in which every contributing piece is a string. -/
def strOfJ : JValue → Chars
  | .jstr s => s
  | _ => []

/-- The pieces the content loop contributes, described as the amended claim
does: a plain-string block contributes itself, a dict block of type `text`
contributes its `text` field, anything else contributes nothing. -/
def textPieces : List JValue → List Chars
  | [] => []
  | b :: bs =>
    match b with
    | .jobj bk =>
      if isTextBlock bk then strOfJ ((dictGet bk "text".data).getD (JValue.jstr [])) :: textPieces bs
      else textPieces bs
    | .jstr s => s :: textPieces bs
    | _ => textPieces bs

/-- The true message content of the sources: every line of every file parsed,
with no tail window; the reference point for backfill completeness. -/
def collectAll (now : PyDatetime) : List SrcFile → Except PyError (List ParsedMessage)
  | [] => .ok []
  | f :: fs =>
    match parseLines now f.agent (extract_session_id f.name) (splitOnCh '\n' f.content) with
    | .error e => .error e
    | .ok ms =>
      match collectAll now fs with
      | .error e => .error e
      | .ok ms' => .ok (ms ++ ms')

/-- The timestamp of the line is a parseable ISO string with no offset suffix,
and the record keeps the resulting naive instant. -/
def NaiveIsoTimestamp (line : Chars) (t : PyDatetime) : Prop :=
  ∃ okvs tsStr, json_loads line = some (JValue.jobj okvs) ∧
    dictGet okvs "timestamp".data = some (JValue.jstr tsStr) ∧
    datetime_fromisoformat (pyReplace tsStr "Z".data "+00:00".data) = some t ∧
    t.tz = none

/-- A fixed aware instant standing for `datetime.now(timezone.utc)` in the
concrete evaluations below. -/
def now0 : PyDatetime := ⟨2026, 1, 1, 0, 0, 0, 0, some 0⟩

/-- A complete, parseable message line with an aware timestamp. -/
def lineFull : Chars :=
  "\x7b\"type\":\"message\",\"message\":\x7b\"role\":\"user\",\"content\":[\x7b\"type\":\"text\",\"text\":\"hi\"\x7d]\x7d,\"timestamp\":\"2026-01-02T03:04:05+00:00\"\x7d".data

/-- The same message line with an offset-less timestamp. -/
def lineNaiveTs : Chars :=
  "\x7b\"type\":\"message\",\"message\":\x7b\"role\":\"user\",\"content\":[\x7b\"type\":\"text\",\"text\":\"hi\"\x7d]\x7d,\"timestamp\":\"2026-01-02T03:04:05\"\x7d".data

/-- A message line whose content is the plain string `ab`. -/
def lineStrContent : Chars :=
  "\x7b\"type\":\"message\",\"message\":\x7b\"role\":\"user\",\"content\":\"ab\"\x7d\x7d".data

/-- A message line with one-character string content and no timestamp. -/
def lineNoTs : Chars :=
  "\x7b\"type\":\"message\",\"message\":\x7b\"role\":\"user\",\"content\":\"x\"\x7d\x7d".data

/-- A message line whose nested message is not an object. -/
def lineMsgNonObj : Chars :=
  "\x7b\"type\":\"message\",\"message\":\"hi\"\x7d".data

/-- A message line whose content is not iterable. -/
def lineContentNonIter : Chars :=
  "\x7b\"type\":\"message\",\"message\":\x7b\"role\":\"user\",\"content\":5\x7d\x7d".data

/-- A message line whose usage member is not an object. -/
def lineUsageNonObj : Chars :=
  "\x7b\"type\":\"message\",\"message\":\x7b\"role\":\"user\",\"content\":\"x\",\"usage\":5\x7d\x7d".data

/-- A message line whose usage.cost member is a truthy non-object. -/
def lineCostNonObj : Chars :=
  "\x7b\"type\":\"message\",\"message\":\x7b\"role\":\"user\",\"content\":\"x\",\"usage\":\x7b\"cost\":7\x7d\x7d\x7d".data

/-- A decodable line whose type member is the number 1. -/
def lineTypeNum : Chars := "\x7b\"type\":1\x7d".data

/-- A message-typed line whose role is `tool`. -/
def lineRoleTool : Chars :=
  "\x7b\"type\":\"message\",\"message\":\x7b\"role\":\"tool\"\x7d\x7d".data

/-- Ten complete pre-existing lines for the registration example. -/
def pre10 : Chars := "h0\nh1\nh2\nh3\nh4\nh5\nh6\nh7\nh8\nh9\n".data

/-- Three complete appended lines for the registration example. -/
def app3 : Chars := "x\ny\nz\n".data

/-- Backfill counterexample file: one parseable message followed by three junk
lines, so that the three-line tail window of `last_n` with `n = 1` misses the
message. -/
def c3file : SrcFile := ⟨"a".data, "sess.jsonl".data, lineFull ++ "\nj\nj\nj\n".data⟩

/-- Small junk file for the backfill witness. -/
def fW : SrcFile := ⟨"a".data, "w.jsonl".data, "x\n".data⟩

/-- Decoded object members of `lineNoTs`. -/
def mkvs8 : List (Chars × JValue) :=
  [("role".data, JValue.jstr "user".data), ("content".data, JValue.jstr "x".data)]

/-- Decoded top-level members of `lineNoTs`. -/
def okvs8 : List (Chars × JValue) :=
  [("type".data, JValue.jstr "message".data), ("message".data, JValue.jobj mkvs8)]

/-- The record `parse_line` produces for `lineNoTs`. -/
def m8w : ParsedMessage :=
  ⟨now0, "user".data, "ag".data, "sid".data, none, none, "x".data, none, none, JValue.jobj okvs8⟩

/-- Decoded message members of `lineStrContent`. -/
def mkvs5 : List (Chars × JValue) :=
  [("role".data, JValue.jstr "user".data), ("content".data, JValue.jstr "ab".data)]

/-- Decoded top-level members of `lineStrContent`. -/
def okvs5 : List (Chars × JValue) :=
  [("type".data, JValue.jstr "message".data), ("message".data, JValue.jobj mkvs5)]

/-- The record `parse_line` produces for `lineStrContent`: note the text is the
characters of `ab` joined by a newline. -/
def m5w : ParsedMessage :=
  ⟨now0, "user".data, "ag".data, "sid".data, none, none, ['a', '\n', 'b'], none, none,
    JValue.jobj okvs5⟩

/-- Filesystem of the registration witness: only `p1.jsonl` exists, with 100
characters. -/
def fsA : Chars → Option Nat := fun p => if p = "p1.jsonl".data then some 100 else none

/-- A later filesystem state in which every path opens with 999 characters. -/
def fsB : Chars → Option Nat := fun _ => some 999

/-- The source registered for `p1.jsonl` under `fsA`. -/
def srcW : Source := ⟨0, "a".data, "p1".data, 100⟩

/-- Renderer witness text: a bracketed prefix, then the user-message marker,
then the payload. -/
def textW : Chars := "[x] [User Message]  hi".data


/-- Candidate enumeration of the first scan. -/
def cands1 : List (Chars × Chars) := [("a".data, "p1.jsonl".data)]

/-- Candidate enumeration of the second scan. -/
def cands2 : List (Chars × Chars) := [("a".data, "p1.jsonl".data), ("a".data, "p2.jsonl".data)]

/-- The split lines of the trailing region `_tail_lines` reads: the last
`max_lines * 2048` characters (or the whole file when smaller), stripped and
split on newlines. -/
def regionLines (content : Chars) (max_lines : Nat) : List Chars :=
  splitOnCh '\n' (pyStrip (content.drop (content.length - min content.length (max_lines * 2048))))

set_option maxRecDepth 4000

/-- C4: the claim that `parse` never raises an error to its caller fails in
the code, and the claim matches the function's declared contract (return a
record or `None`), so the code is the slip: a line that decodes to a
non-object (here the empty JSON array) reaches `obj.get` and raises
`AttributeError`; the shapes the claim names all raise too — a non-object
nested message, a non-iterable content, a non-object usage, and a truthy
non-object usage.cost. -/
theorem C4_parse_crashes :
    parse_line now0 "[]".data "a".data "s".data = .error .attributeError ∧
    parse_line now0 lineMsgNonObj "a".data "s".data = .error .attributeError ∧
    parse_line now0 lineContentNonIter "a".data "s".data = .error .typeError ∧
    parse_line now0 lineUsageNonObj "a".data "s".data = .error .attributeError ∧
    parse_line now0 lineCostNonObj "a".data "s".data = .error .attributeError :=
  ⟨rfl, rfl, rfl, rfl, rfl⟩

/-- C1 counterexample: a registered source whose file holds one complete
message line with no terminating newline.  The claim says the read step emits
no record for this partial trailing line and leaves it unconsumed; the code's
`readline` loop reads the unterminated fragment anyway, emits the record
before any terminator exists, and advances the cursor to end of file. -/
theorem C1_counterexample :
    (drainSource now0 lineFull "a".data "s".data 0).map
      (fun p => (p.1.map ParsedMessage.text, p.2)) = .ok (["hi".data], lineFull.length) ∧
    lineFull.contains '\n' = false ∧
    lineFull.length ≠ 0 :=
  ⟨rfl, by decide, by decide⟩

/-- C5 counterexample: for a message whose content is the plain string `ab`,
the claim says the record text is `ab` trimmed; the code iterates the string
character by character, so the record text is the characters joined by
newlines, `a\nb`. -/
theorem C5_counterexample :
    (parse_line now0 lineStrContent "a".data "s".data).map (Option.map ParsedMessage.text) =
      .ok (some ['a', '\n', 'b']) ∧
    (['a', '\n', 'b'] : Chars) ≠ pyStrip "ab".data :=
  ⟨rfl, by decide⟩

/-- C8 counterexample: a message line whose ISO timestamp has no offset suffix
produces a record with a naive timestamp (`tz = none`), not one carrying an
offset or normalized to utc as the claim requires. -/
theorem C8_counterexample :
    (parse_line now0 lineNaiveTs "a".data "s".data).map
      (Option.map (fun m => m.timestamp.tz)) = .ok (some none) := rfl

/-- C3 counterexample: one source file holding one parseable message followed
by three junk lines.  With `n = 1` the claim demands the single most recent
message; the code reads only the last `3 * n = 3` raw lines of the file, which
are all junk, and returns no records at all. -/
theorem C3_counterexample :
    show_last_n now0 [c3file] 1 = .ok [] ∧
    (parse_line now0 lineFull "a".data "sess".data).map (Option.map ParsedMessage.text) =
      .ok (some "hi".data) ∧
    ([] : List ParsedMessage).length ≠ 1 :=
  ⟨rfl, rfl, by decide⟩


lemma pyFindGo_eq_some (needle : Chars) :
    ∀ (t : Chars) (k i : Nat), startsWithCh needle (t.drop i) = true →
      (∀ j, j < i → startsWithCh needle (t.drop j) = false) →
      pyFindGo needle t k = some (k + i) := by
  intro t
  induction t with
  | nil =>
    intro k i h1 h2
    rw [List.drop_nil] at h1
    cases needle with
    | nil =>
      cases i with
      | zero => simp [pyFindGo, startsWithCh]
      | succ i' => exact absurd (h2 0 (Nat.succ_pos _)) (by simp [startsWithCh, h1])
    | cons a as => simp [startsWithCh] at h1
  | cons c t' ih =>
    intro k i h1 h2
    cases i with
    | zero =>
      rw [List.drop_zero] at h1
      simp [pyFindGo, h1]
    | succ i' =>
      have h0 : startsWithCh needle (c :: t') = false := by
        have := h2 0 (Nat.succ_pos _)
        simpa using this
      rw [List.drop_succ_cons] at h1
      have hrec := ih (k + 1) i' h1 (fun j hj => by
        have := h2 (j + 1) (by omega)
        simpa using this)
      have harith : k + 1 + i' = k + (i' + 1) := by omega
      simp [pyFindGo, h0, hrec, harith]

lemma pyFindGo_eq_none (needle : Chars) :
    ∀ (t : Chars) (k : Nat), (∀ j, startsWithCh needle (t.drop j) = false) →
      pyFindGo needle t k = none := by
  intro t
  induction t with
  | nil =>
    intro k h
    have h0 := h 0
    rw [List.drop_nil] at h0
    simp [pyFindGo, h0]
  | cons c t' ih =>
    intro k h
    have h0 := h 0
    rw [List.drop_zero] at h0
    simp [pyFindGo, h0]
    exact ih (k + 1) (fun j => by have := h (j + 1); simpa using this)

/-- C10: the renderer's marker stripping.  For a user-role message whose text
starts with `[` and in which the marker `[User Message]` occurs (first
occurrence at index `i`), the displayed text — before newline collapsing and
width truncation — is the trimmed portion after the marker; an assistant
message, a text not starting with `[`, or a text without the marker is
displayed unmodified. -/
theorem C10_marker_stripping : ∀ role text,
    (∀ i, role = "user".data → startsWithCh ['['] text = true →
      startsWithCh userMarker (text.drop i) = true →
      (∀ j, j < i → startsWithCh userMarker (text.drop j) = false) →
      strip_user_marker role text = pyStrip (text.drop (i + userMarker.length))) ∧
    (role ≠ "user".data → strip_user_marker role text = text) ∧
    (startsWithCh ['['] text = false → strip_user_marker role text = text) ∧
    ((∀ j, startsWithCh userMarker (text.drop j) = false) →
      strip_user_marker role text = text) := by
  intro role text
  refine ⟨?_, ?_, ?_, ?_⟩
  · intro i hrole hstart hocc hfirst
    have hfind : pyFind text userMarker = some i := by
      have := pyFindGo_eq_some userMarker text 0 i hocc hfirst
      simpa [pyFind] using this
    simp [strip_user_marker, hrole, hstart, hfind]
  · intro h
    simp [strip_user_marker, h]
  · intro h
    simp [strip_user_marker, h]
  · intro h
    have hfind : pyFind text userMarker = none := by
      have := pyFindGo_eq_none userMarker text 0 h
      simpa [pyFind] using this
    unfold strip_user_marker
    split
    · simp [hfind]
    · rfl

/-- C10 witness: a concrete user message with the marker at index 4. -/
theorem C10_witness : strip_user_marker "user".data textW = "hi".data := by
  have h := (C10_marker_stripping "user".data textW).1 4 rfl (by decide) (by decide) (by decide)
  exact h.trans (by decide)

lemma lookupPath_mem : ∀ (files : List (Chars × Source)) p s,
    lookupPath files p = some s → p ∈ files.map Prod.fst := by
  intro files
  induction files with
  | nil => intro p s h; exact absurd h (by simp [lookupPath])
  | cons e rest ih =>
    intro p s h
    obtain ⟨k, v⟩ := e
    by_cases hc : k = p
    · simp [hc]
    · simp only [lookupPath, if_neg hc] at h
      simp only [List.map_cons]
      exact List.mem_cons_of_mem _ (ih p s h)

lemma lookupPath_append_left : ∀ (files l : List (Chars × Source)) p s,
    lookupPath files p = some s → lookupPath (files ++ l) p = some s := by
  intro files l
  induction files with
  | nil => intro p s h; exact absurd h (by simp [lookupPath])
  | cons e rest ih =>
    intro p s h
    obtain ⟨k, v⟩ := e
    rw [List.cons_append]
    by_cases hc : k = p
    · simp only [lookupPath, if_pos hc] at h ⊢
      exact h
    · simp only [lookupPath, if_neg hc] at h ⊢
      exact ih p s h

lemma lookupPath_eq_none : ∀ (files : List (Chars × Source)) p,
    lookupPath files p = none → p ∉ files.map Prod.fst := by
  intro files
  induction files with
  | nil => intro p _; simp
  | cons e rest ih =>
    intro p h
    obtain ⟨k, v⟩ := e
    by_cases hc : k = p
    · simp only [lookupPath, if_pos hc] at h
      exact absurd h (by simp)
    · simp only [lookupPath, if_neg hc] at h
      simp only [List.map_cons, List.mem_cons]
      rintro (hh | hh)
      · exact hc hh.symm
      · exact ih p h hh

lemma registerOne_preserves_lookup (fs : Chars → Option Nat) (ag q : Chars)
    (st : TailState) (p : Chars) (s : Source)
    (h : lookupPath st.files p = some s) :
    lookupPath (registerOne fs ag q st).files p = some s := by
  cases hq : lookupPath st.files q with
  | some s0 => simpa [registerOne, hq] using h
  | none =>
    cases hz : fs q with
    | none => simpa [registerOne, hq, hz] using h
    | some sz =>
      simp only [registerOne, hq, hz]
      exact lookupPath_append_left _ _ _ _ h

lemma registerOne_nodup (fs : Chars → Option Nat) (ag q : Chars) (st : TailState)
    (h : (st.files.map Prod.fst).Nodup) :
    ((registerOne fs ag q st).files.map Prod.fst).Nodup := by
  cases hq : lookupPath st.files q with
  | some s0 => simpa [registerOne, hq] using h
  | none =>
    cases hz : fs q with
    | none => simpa [registerOne, hq, hz] using h
    | some sz =>
      have hnot : q ∉ st.files.map Prod.fst := lookupPath_eq_none _ _ hq
      simp only [registerOne, hq, hz, List.map_append, List.map_cons, List.map_nil]
      rw [List.nodup_append]
      refine ⟨h, List.nodup_singleton q, ?_⟩
      intro x hx hxq
      rw [List.mem_singleton] at hxq
      exact hnot (hxq ▸ hx)

lemma scan_preserves_lookup (fs : Chars → Option Nat) :
    ∀ (cands : List (Chars × Chars)) (st : TailState) (p : Chars) (s : Source),
    lookupPath st.files p = some s → lookupPath (scan_files fs cands st).files p = some s := by
  intro cands
  induction cands with
  | nil => intro st p s h; exact h
  | cons c cs ih =>
    intro st p s h
    rw [scan_files, List.foldl_cons]
    exact ih _ p s (registerOne_preserves_lookup fs c.1 c.2 st p s h)

lemma scan_nodup (fs : Chars → Option Nat) :
    ∀ (cands : List (Chars × Chars)) (st : TailState),
    (st.files.map Prod.fst).Nodup → ((scan_files fs cands st).files.map Prod.fst).Nodup := by
  intro cands
  induction cands with
  | nil => intro st h; exact h
  | cons c cs ih =>
    intro st h
    rw [scan_files, List.foldl_cons]
    exact ih _ (registerOne_nodup fs c.1 c.2 st h)

lemma countP_eq_one_of_nodup_mem : ∀ (l : List Chars) (p : Chars), l.Nodup → p ∈ l →
    l.countP (fun q => q = p) = 1 := by
  intro l
  induction l with
  | nil => intro p _ hm; simp at hm
  | cons a rest ih =>
    intro p hnd hm
    rw [List.nodup_cons] at hnd
    rw [List.countP_cons]
    rcases List.mem_cons.mp hm with rfl | hm2
    · have h0 : rest.countP (fun q => decide (q = p)) = 0 := by
        rw [List.countP_eq_zero]
        intro b hb
        simp only [decide_eq_true_eq]
        intro hba
        exact hnd.1 (hba ▸ hb)
      simp [h0]
    · have hne : a ≠ p := fun hap => hnd.1 (hap ▸ hm2)
      have h1 := ih p hnd.2 hm2
      simp [h1, hne]

/-- C7: registration is idempotent.  If a path is registered after one scan,
any later scan — over any filesystem state and candidate list — leaves the
registry with the very same source for it (same handle, so never reopened;
same cursor, so never reset) and with exactly one entry for that path. -/
theorem C7_idempotent_registration :
    ∀ (fs1 fs2 : Chars → Option Nat) (c1 c2 : List (Chars × Chars)) (st : TailState)
      (p : Chars) (src : Source),
    (st.files.map Prod.fst).Nodup →
    lookupPath (scan_files fs1 c1 st).files p = some src →
    lookupPath (scan_files fs2 c2 (scan_files fs1 c1 st)).files p = some src ∧
    ((scan_files fs2 c2 (scan_files fs1 c1 st)).files.map Prod.fst).countP
      (fun q => q = p) = 1 := by
  intro fs1 fs2 c1 c2 st p src hnd h1
  have h2 : lookupPath (scan_files fs2 c2 (scan_files fs1 c1 st)).files p = some src :=
    scan_preserves_lookup fs2 c2 _ p src h1
  refine ⟨h2, ?_⟩
  have hnd2 : ((scan_files fs2 c2 (scan_files fs1 c1 st)).files.map Prod.fst).Nodup :=
    scan_nodup fs2 c2 _ (scan_nodup fs1 c1 st hnd)
  have hmem : p ∈ (scan_files fs2 c2 (scan_files fs1 c1 st)).files.map Prod.fst :=
    lookupPath_mem _ p src h2
  exact countP_eq_one_of_nodup_mem _ p hnd2 hmem

/-- C7 witness: `p1.jsonl` registered at size 100 keeps handle 0 and cursor
100 across a second scan in which every path reports size 999. -/
theorem C7_witness :
    lookupPath (scan_files fsB cands2 (scan_files fsA cands1 ⟨[], 0⟩)).files
      "p1.jsonl".data = some srcW ∧
    ((scan_files fsB cands2 (scan_files fsA cands1 ⟨[], 0⟩)).files.map Prod.fst).countP
      (fun q => q = "p1.jsonl".data) = 1 :=
  C7_idempotent_registration fsA fsB cands1 cands2 ⟨[], 0⟩ "p1.jsonl".data srcW
    (by simp) rfl

lemma readline_length_le (content : Chars) (cursor : Nat) :
    (readline content cursor).length ≤ content.length - cursor := by
  simp only [readline]
  split
  · rename_i i _
    calc (List.take (i + 1) (content.drop cursor)).length
        = min (i + 1) (content.drop cursor).length := List.length_take _ _
      _ ≤ (content.drop cursor).length := Nat.min_le_right _ _
      _ = content.length - cursor := List.length_drop _ _
  · simp [List.length_drop]

lemma readline_eq_nil_iff (content : Chars) (cursor : Nat) :
    readline content cursor = [] ↔ content.length ≤ cursor := by
  simp only [readline]
  split
  · rename_i i hfind
    constructor
    · intro ht
      rw [List.take_eq_nil_iff] at ht
      rcases ht with ht | ht
      · exact absurd ht (by omega)
      · rw [← List.drop_eq_nil_iff]
        exact ht
    · intro hle
      have hd : content.drop cursor = [] := List.drop_eq_nil_iff.mpr hle
      rw [hd, List.take_nil]
  · exact List.drop_eq_nil_iff

lemma readline_ne_nil (content : Chars) (cursor : Nat) (h : cursor < content.length) :
    readline content cursor ≠ [] := by
  intro hn
  have := (readline_eq_nil_iff content cursor).mp hn
  omega

lemma drainGo_final_cursor (now : PyDatetime) (content a s : Chars) :
    ∀ (fuel cursor : Nat) (ms : List ParsedMessage) (c' : Nat),
    content.length ≤ cursor + fuel → cursor ≤ content.length →
    drainGo now content a s fuel cursor = .ok (ms, c') → c' = content.length := by
  intro fuel
  induction fuel with
  | zero =>
    intro cursor ms c' hf hc h
    simp only [drainGo] at h
    have hcc : cursor = c' := by
      cases h
      rfl
    omega
  | succ fuel ih =>
    intro cursor ms c' hf hc h
    simp only [drainGo] at h
    by_cases hemp : (readline content cursor).isEmpty
    · rw [if_pos hemp] at h
      have hnil : readline content cursor = [] := List.isEmpty_iff.mp hemp
      have hle := (readline_eq_nil_iff content cursor).mp hnil
      have hcc : cursor = c' := by
        cases h
        rfl
      omega
    · rw [if_neg hemp] at h
      have hpos : 0 < (readline content cursor).length :=
        List.length_pos.mpr (fun hn => hemp (List.isEmpty_iff.mpr hn))
      have hlen := readline_length_le content cursor
      have hc' : cursor + (readline content cursor).length ≤ content.length := by omega
      have hf' : content.length ≤ cursor + (readline content cursor).length + fuel := by omega
      by_cases hstrip : (pyStrip (readline content cursor)).isEmpty
      · rw [if_pos hstrip] at h
        exact ih _ ms c' hf' hc' h
      · rw [if_neg hstrip] at h
        cases hp : parse_line now (pyStrip (readline content cursor)) a s with
        | error e => rw [hp] at h; exact absurd h (by simp)
        | ok o =>
          rw [hp] at h
          cases o with
          | none => exact ih _ ms c' hf' hc' h
          | some m =>
            cases hrec : drainGo now content a s fuel (cursor + (readline content cursor).length) with
            | error e => rw [hrec] at h; exact absurd h (by simp)
            | ok pr =>
              obtain ⟨ms', c''⟩ := pr
              rw [hrec] at h
              have hcc : c'' = c' := by
                cases h
                rfl
              have := ih _ ms' c'' hf' hc' hrec
              omega

/-- C1 amended: the read step consumes everything.  A successful drain leaves
the cursor at end of file, so no partial trailing line ever remains unconsumed
for the next cycle. -/
theorem C1_amended_full_consumption :
    ∀ (now : PyDatetime) (content agent sid : Chars) (cursor : Nat)
      (ms : List ParsedMessage) (c' : Nat),
    cursor ≤ content.length →
    drainSource now content agent sid cursor = .ok (ms, c') → c' = content.length := by
  intro now content a s cursor ms c' hc h
  exact drainGo_final_cursor now content a s _ cursor ms c' (by omega) hc h

/-- C1 amended witness: draining a two-character file from the start ends
with the cursor at its length. -/
theorem C1_amended_witness :
    (0 : Nat) ≤ ("x\n".data).length ∧
    drainSource now0 "x\n".data "a".data "s".data 0 = .ok ([], 2) ∧
    (2 : Nat) = ("x\n".data).length :=
  ⟨by decide, rfl,
    C1_amended_full_consumption now0 "x\n".data "a".data "s".data 0 [] 2 (by decide) rfl⟩

lemma readline_shift (pre app : Chars) (k : Nat) :
    readline (pre ++ app) (pre.length + k) = readline app k := by
  unfold readline
  rw [List.drop_append]

lemma drainGo_shift (now : PyDatetime) (pre app a s : Chars) :
    ∀ (fuel k : Nat),
    drainGo now (pre ++ app) a s fuel (pre.length + k) =
      (drainGo now app a s fuel k).map (fun p => (p.1, pre.length + p.2)) := by
  intro fuel
  induction fuel with
  | zero => intro k; simp [drainGo, Except.map]
  | succ fuel ih =>
    intro k
    simp only [drainGo]
    rw [readline_shift]
    by_cases hemp : (readline app k).isEmpty
    · rw [if_pos hemp, if_pos hemp]
      simp [Except.map]
    · rw [if_neg hemp, if_neg hemp]
      have harr : pre.length + k + (readline app k).length
          = pre.length + (k + (readline app k).length) := by omega
      rw [harr]
      by_cases hstrip : (pyStrip (readline app k)).isEmpty
      · rw [if_pos hstrip, if_pos hstrip]
        exact ih _
      · rw [if_neg hstrip, if_neg hstrip]
        cases hp : parse_line now (pyStrip (readline app k)) a s with
        | error e => simp [Except.map]
        | ok o =>
          cases o with
          | none => exact ih _
          | some m =>
            rw [ih (k + (readline app k).length)]
            cases drainGo now app a s fuel (k + (readline app k).length) with
            | error e => simp [Except.map]
            | ok pr => simp [Except.map]

lemma drainGo_le_segs (now : PyDatetime) (content a s : Chars) :
    ∀ (fuel cursor : Nat) (ms : List ParsedMessage) (c' : Nat),
    drainGo now content a s fuel cursor = .ok (ms, c') →
    ms.length ≤ segsGo content fuel cursor := by
  intro fuel
  induction fuel with
  | zero =>
    intro cursor ms c' h
    simp only [drainGo] at h
    have : ms = [] := by cases h; rfl
    simp [this, segsGo]
  | succ fuel ih =>
    intro cursor ms c' h
    simp only [drainGo] at h
    simp only [segsGo]
    by_cases hemp : (readline content cursor).isEmpty
    · rw [if_pos hemp] at h
      have : ms = [] := by cases h; rfl
      simp [this, hemp]
    · rw [if_neg hemp] at h
      rw [if_neg hemp]
      by_cases hstrip : (pyStrip (readline content cursor)).isEmpty
      · rw [if_pos hstrip] at h
        have := ih _ ms c' h
        omega
      · rw [if_neg hstrip] at h
        cases hp : parse_line now (pyStrip (readline content cursor)) a s with
        | error e => rw [hp] at h; exact absurd h (by simp)
        | ok o =>
          rw [hp] at h
          cases o with
          | none =>
            have := ih _ ms c' h
            omega
          | some m =>
            cases hrec : drainGo now content a s fuel
                (cursor + (readline content cursor).length) with
            | error e => rw [hrec] at h; exact absurd h (by simp)
            | ok pr =>
              obtain ⟨ms', c''⟩ := pr
              rw [hrec] at h
              have hms : ms = m :: ms' := by cases h; rfl
              have := ih _ ms' c'' hrec
              simp [hms]
              omega

/-- C2: a source registered at end of file never re-emits history.  Draining
`pre ++ app` from cursor `length pre` equals draining `app` alone (with the
cursor shifted), so the emitted records are a function of the appended bytes
only; and at most one record is emitted per readline segment of the appended
bytes — with 10 pre-existing lines and 3 appended ones, at most 3 records. -/
theorem C2_no_history_reemission :
    ∀ (now : PyDatetime) (pre app agent sid : Chars),
    drainSource now (pre ++ app) agent sid pre.length =
      (drainSource now app agent sid 0).map (fun p => (p.1, pre.length + p.2)) ∧
    ∀ (ms : List ParsedMessage) (c' : Nat),
      drainSource now app agent sid 0 = .ok (ms, c') → ms.length ≤ segsOf app := by
  intro now pre app a s
  constructor
  · unfold drainSource
    have hfuel : (pre ++ app).length + 1 - pre.length = app.length + 1 - 0 := by
      simp only [List.length_append]
      omega
    rw [hfuel]
    have hcur : pre.length = pre.length + 0 := by omega
    rw [hcur]
    exact drainGo_shift now pre app a s (app.length + 1 - 0) 0
  · intro ms c' h
    exact drainGo_le_segs now app a s _ 0 ms c' h

/-- C2 witness: ten pre-existing lines, three appended junk lines; the drain
of the appended part yields no records, zero is at most the three segments,
and the combined drain factors through the appended part. -/
theorem C2_witness :
    drainSource now0 app3 "a".data "s".data 0 = .ok ([], 6) ∧
    ([] : List ParsedMessage).length ≤ segsOf app3 ∧
    drainSource now0 (pre10 ++ app3) "a".data "s".data pre10.length =
      (drainSource now0 app3 "a".data "s".data 0).map (fun p => (p.1, pre10.length + p.2)) :=
  ⟨rfl, (C2_no_history_reemission now0 pre10 app3 "a".data "s".data).2 [] 6 rfl,
    (C2_no_history_reemission now0 pre10 app3 "a".data "s".data).1⟩

lemma dropWhile_eq_self_of_none (p : Char → Bool) (l : Chars)
    (h : ∀ c ∈ l, p c = false) : l.dropWhile p = l := by
  cases l with
  | nil => rfl
  | cons c t =>
    rw [List.dropWhile_cons]
    simp [h c (List.mem_cons_self _ _)]

lemma pyStrip_of_no_ws (l : Chars) (h : ∀ c ∈ l, isPyWs c = false) : pyStrip l = l := by
  unfold pyStrip
  rw [dropWhile_eq_self_of_none _ _ h]
  rw [dropWhile_eq_self_of_none _ _ (fun c hc => h c (List.mem_reverse.mp hc))]
  exact List.reverse_reverse l

lemma splitOnCh_cons (sep c : Char) (t : Chars) :
    splitOnCh sep (c :: t) =
      (match splitOnCh sep t with
       | [] => [[c]]
       | a :: as => if c = sep then [] :: a :: as else (c :: a) :: as) := rfl

lemma splitOnCh_eq_single (sep : Char) (l : Chars) (h : ∀ c ∈ l, c ≠ sep) :
    splitOnCh sep l = [l] := by
  induction l with
  | nil => rfl
  | cons c t ih =>
    have hc : c ≠ sep := h c (List.mem_cons_self _ _)
    have ht := ih (fun x hx => h x (List.mem_cons_of_mem _ hx))
    rw [splitOnCh_cons, ht]
    simp [hc]

/-- C6 counterexample: a file of 2049 identical characters forming one line,
read with a budget of one line.  The region (the last 2048 characters) does
not begin at the start of the file, so the claim demands its first line — here
the whole region, a fragment of the single longer line — be discarded; the
code returns the fragment as a candidate line. -/
theorem C6_counterexample :
    tail_lines (List.replicate 2049 'x') 1 = [List.replicate 2048 'x'] ∧
    List.replicate 2048 'x' ≠ ([] : Chars) := by
  constructor
  · have hnw : ∀ c ∈ List.replicate 2048 'x', isPyWs c = false := by
      intro c hc
      rw [List.eq_of_mem_replicate hc]
      decide
    have hnn : ∀ c ∈ List.replicate 2048 'x', c ≠ '\n' := by
      intro c hc
      rw [List.eq_of_mem_replicate hc]
      decide
    have hdrop : List.drop 1 (List.replicate 2049 'x') = List.replicate 2048 'x' := by
      rw [show (2049 : Nat) = 1 + 2048 by norm_num, List.replicate_add]
      rw [List.drop_append_of_le_length (by simp)]
      rw [show List.drop 1 (List.replicate 1 'x') = [] from rfl, List.nil_append]
    simp only [tail_lines, List.length_replicate]
    rw [show min 2049 (1 * 2048) = 2048 by norm_num]
    rw [show (2049 - 2048 : Nat) = 1 by norm_num]
    rw [hdrop, pyStrip_of_no_ws _ hnw, splitOnCh_eq_single _ _ hnn]
    rfl
  · intro h
    have h2 := congrArg List.length h
    rw [List.length_replicate, List.length_nil] at h2
    exact absurd h2 (by norm_num)

/-- C6 amended: the returned list is the last `max_lines` entries of the
region's split lines, so the leading fragment of the region is dropped exactly
when the region splits into more than `max_lines` lines; a region with at most
`max_lines` lines — for instance one holding a single unterminated fragment —
is returned whole, fragment included. -/
theorem C6_amended : ∀ (content : Chars) (max_lines : Nat), 0 < max_lines →
    (max_lines < (regionLines content max_lines).length →
      tail_lines content max_lines =
        (regionLines content max_lines).drop
          ((regionLines content max_lines).length - max_lines) ∧
      1 ≤ (regionLines content max_lines).length - max_lines) ∧
    ((regionLines content max_lines).length ≤ max_lines →
      tail_lines content max_lines = regionLines content max_lines) := by
  intro content max_lines hpos
  have heq : tail_lines content max_lines = pyNegSlice max_lines (regionLines content max_lines) := rfl
  constructor
  · intro hgt
    constructor
    · rw [heq]
      unfold pyNegSlice
      rw [if_neg (by omega)]
    · omega
  · intro hle
    rw [heq]
    unfold pyNegSlice
    rw [if_neg (by omega)]
    have : (regionLines content max_lines).length - max_lines = 0 := by omega
    rw [this, List.drop_zero]

/-- C6 amended witness: with three region lines and a budget of one, the last
line alone is returned. -/
theorem C6_amended_witness : tail_lines "a\nb\ncd".data 1 = [['c', 'd']] := by
  have h := ((C6_amended "a\nb\ncd".data 1 (by decide)).1 (by decide)).1
  exact h.trans (by decide)

lemma isMsgType_false_of (okvs : List (Chars × JValue))
    (h : dictGet okvs "type".data ≠ some (JValue.jstr "message".data)) :
    isMsgType okvs = false := by
  cases hd : dictGet okvs "type".data with
  | none => simp [isMsgType, hd]
  | some v =>
    cases v with
    | jstr t =>
      have ht : t ≠ "message".data := by
        intro he
        exact h (by rw [hd, he])
      simp [isMsgType, hd, ht]
    | jnull => simp [isMsgType, hd]
    | jbool b => simp [isMsgType, hd]
    | jnum n => simp [isMsgType, hd]
    | jarr xs => simp [isMsgType, hd]
    | jobj kvs => simp [isMsgType, hd]

/-- C9: the Line Parser's filtering.  An undecodable line, a decoded object
whose type member is not the string `message`, and a message object whose
(defaulted) role value is a string other than `user` or `assistant` — or not a
string at all, so that every string it equals is neither — all produce absent
without an error. -/
theorem C9_parse_filters : ∀ (now : PyDatetime) (line agent sid : Chars),
    (json_loads line = none → parse_line now line agent sid = .ok none) ∧
    (∀ okvs, json_loads line = some (JValue.jobj okvs) →
      dictGet okvs "type".data ≠ some (JValue.jstr "message".data) →
      parse_line now line agent sid = .ok none) ∧
    (∀ okvs mkvs, json_loads line = some (JValue.jobj okvs) →
      dictGet okvs "type".data = some (JValue.jstr "message".data) →
      (dictGet okvs "message".data).getD (JValue.jobj []) = JValue.jobj mkvs →
      (∀ r, (dictGet mkvs "role".data).getD (JValue.jstr []) = JValue.jstr r →
        r ≠ "user".data ∧ r ≠ "assistant".data) →
      parse_line now line agent sid = .ok none) := by
  intro now line a s
  refine ⟨?_, ?_, ?_⟩
  · intro h
    simp [parse_line, h]
  · intro okvs hj ht
    have hm : isMsgType okvs = false := isMsgType_false_of okvs ht
    simp [parse_line, hj, hm]
  · intro okvs mkvs hj ht hmsg hrole
    have hm : isMsgType okvs = true := by simp [isMsgType, ht]
    cases hr : (dictGet mkvs "role".data).getD (JValue.jstr []) with
    | jstr r =>
      have hro := hrole r hr
      have hfalse : roleStrOk r = false := by
        simp [roleStrOk, hro.1, hro.2]
      simp [parse_line, hj, hm, hmsg, hr, hfalse]
    | jnull => simp [parse_line, hj, hm, hmsg, hr]
    | jbool b => simp [parse_line, hj, hm, hmsg, hr]
    | jnum n => simp [parse_line, hj, hm, hmsg, hr]
    | jarr xs => simp [parse_line, hj, hm, hmsg, hr]
    | jobj kvs => simp [parse_line, hj, hm, hmsg, hr]

/-- C9 witness: an undecodable line, a line whose type member is the number 1,
and a message line with role `tool` all yield absent. -/
theorem C9_witness :
    parse_line now0 "xx".data "a".data "s".data = .ok none ∧
    parse_line now0 lineTypeNum "a".data "s".data = .ok none ∧
    parse_line now0 lineRoleTool "a".data "s".data = .ok none := by
  refine ⟨?_, ?_, ?_⟩
  · exact (C9_parse_filters now0 "xx".data "a".data "s".data).1 rfl
  · refine (C9_parse_filters now0 lineTypeNum "a".data "s".data).2.1
      [("type".data, JValue.jnum 1)] rfl ?_
    intro h
    exact JValue.noConfusion (Option.some.inj h)
  · refine (C9_parse_filters now0 lineRoleTool "a".data "s".data).2.2
      [("type".data, JValue.jstr "message".data),
       ("message".data, JValue.jobj [("role".data, JValue.jstr "tool".data)])]
      [("role".data, JValue.jstr "tool".data)] rfl rfl rfl ?_
    intro r hr
    have h2 : JValue.jstr "tool".data = JValue.jstr r := hr
    injection h2 with h3
    subst h3
    exact ⟨by decide, by decide⟩

lemma parse_line_ok_some_inv (now : PyDatetime) (line a s : Chars) (m : ParsedMessage)
    (h : parse_line now line a s = .ok (some m)) :
    ∃ okvs mkvs role blocks joined,
      json_loads line = some (JValue.jobj okvs) ∧
      (dictGet okvs "message".data).getD (JValue.jobj []) = JValue.jobj mkvs ∧
      (dictGet mkvs "role".data).getD (JValue.jstr []) = JValue.jstr role ∧
      pyIterJ ((dictGet mkvs "content".data).getD (JValue.jarr [])) = .ok blocks ∧
      joinParts (contentParts blocks) = .ok joined ∧
      m.text = pyStrip joined ∧
      m.role = role ∧
      m.timestamp = (match dictGet okvs "timestamp".data with
        | some (JValue.jstr tsStr) =>
          (datetime_fromisoformat (pyReplace tsStr "Z".data "+00:00".data)).getD now
        | _ => now) := by
  cases hj : json_loads line with
  | none =>
    have hev : parse_line now line a s = .ok none := by simp [parse_line, hj]
    exact absurd (hev.symm.trans h) (by simp)
  | some obj =>
    cases obj with
    | jnull =>
      have hev : parse_line now line a s = .error .attributeError := by simp [parse_line, hj]
      exact absurd (hev.symm.trans h) (by simp)
    | jbool b =>
      have hev : parse_line now line a s = .error .attributeError := by simp [parse_line, hj]
      exact absurd (hev.symm.trans h) (by simp)
    | jnum n =>
      have hev : parse_line now line a s = .error .attributeError := by simp [parse_line, hj]
      exact absurd (hev.symm.trans h) (by simp)
    | jstr t =>
      have hev : parse_line now line a s = .error .attributeError := by simp [parse_line, hj]
      exact absurd (hev.symm.trans h) (by simp)
    | jarr xs =>
      have hev : parse_line now line a s = .error .attributeError := by simp [parse_line, hj]
      exact absurd (hev.symm.trans h) (by simp)
    | jobj okvs =>
      by_cases hmt : isMsgType okvs = true
      case neg =>
        have hev : parse_line now line a s = .ok none := by simp [parse_line, hj, hmt]
        exact absurd (hev.symm.trans h) (by simp)
      case pos =>
      cases hmsg : (dictGet okvs "message".data).getD (JValue.jobj []) with
      | jnull =>
        have hev : parse_line now line a s = .error .attributeError := by
          simp [parse_line, hj, hmt, hmsg]
        exact absurd (hev.symm.trans h) (by simp)
      | jbool b =>
        have hev : parse_line now line a s = .error .attributeError := by
          simp [parse_line, hj, hmt, hmsg]
        exact absurd (hev.symm.trans h) (by simp)
      | jnum n =>
        have hev : parse_line now line a s = .error .attributeError := by
          simp [parse_line, hj, hmt, hmsg]
        exact absurd (hev.symm.trans h) (by simp)
      | jstr t =>
        have hev : parse_line now line a s = .error .attributeError := by
          simp [parse_line, hj, hmt, hmsg]
        exact absurd (hev.symm.trans h) (by simp)
      | jarr xs =>
        have hev : parse_line now line a s = .error .attributeError := by
          simp [parse_line, hj, hmt, hmsg]
        exact absurd (hev.symm.trans h) (by simp)
      | jobj mkvs =>
      cases hrv : (dictGet mkvs "role".data).getD (JValue.jstr []) with
      | jnull =>
        have hev : parse_line now line a s = .ok none := by simp [parse_line, hj, hmt, hmsg, hrv]
        exact absurd (hev.symm.trans h) (by simp)
      | jbool b =>
        have hev : parse_line now line a s = .ok none := by simp [parse_line, hj, hmt, hmsg, hrv]
        exact absurd (hev.symm.trans h) (by simp)
      | jnum n =>
        have hev : parse_line now line a s = .ok none := by simp [parse_line, hj, hmt, hmsg, hrv]
        exact absurd (hev.symm.trans h) (by simp)
      | jarr xs =>
        have hev : parse_line now line a s = .ok none := by simp [parse_line, hj, hmt, hmsg, hrv]
        exact absurd (hev.symm.trans h) (by simp)
      | jobj kvs =>
        have hev : parse_line now line a s = .ok none := by simp [parse_line, hj, hmt, hmsg, hrv]
        exact absurd (hev.symm.trans h) (by simp)
      | jstr r =>
      by_cases hro : roleStrOk r = true
      case neg =>
        have hev : parse_line now line a s = .ok none := by
          simp [parse_line, hj, hmt, hmsg, hrv, hro]
        exact absurd (hev.symm.trans h) (by simp)
      case pos =>
      cases hit : pyIterJ ((dictGet mkvs "content".data).getD (JValue.jarr [])) with
      | error e =>
        have hev : parse_line now line a s = .error e := by
          simp [parse_line, hj, hmt, hmsg, hrv, hro, hit]
        exact absurd (hev.symm.trans h) (by simp)
      | ok blocks =>
      cases hjp : joinParts (contentParts blocks) with
      | error e =>
        have hev : parse_line now line a s = .error e := by
          simp [parse_line, hj, hmt, hmsg, hrv, hro, hit, hjp]
        exact absurd (hev.symm.trans h) (by simp)
      | ok joined =>
      by_cases hemp : (pyStrip joined).isEmpty = true
      case pos =>
        have hev : parse_line now line a s = .ok none := by
          simp [parse_line, hj, hmt, hmsg, hrv, hro, hit, hjp, hemp]
        exact absurd (hev.symm.trans h) (by simp)
      case neg =>
      cases husage : (match dictGet mkvs "usage".data with
          | none => Except.ok ([] : List (Chars × JValue))
          | some (JValue.jobj u) => Except.ok u
          | some _ => Except.error PyError.attributeError :
            Except PyError (List (Chars × JValue))) with
      | error e =>
        have hev : parse_line now line a s = .error e := by
          simp [parse_line, hj, hmt, hmsg, hrv, hro, hit, hjp, hemp, husage]
        exact absurd (hev.symm.trans h) (by simp)
      | ok ukvs =>
      cases hcost : (if pyTruthy ((dictGet ukvs "cost".data).getD (JValue.jobj [])) then
             match (dictGet ukvs "cost".data).getD (JValue.jobj []) with
             | JValue.jobj ck => Except.ok (dictGet ck "total".data)
             | _ => Except.error PyError.attributeError
           else Except.ok none : Except PyError (Option JValue)) with
      | error e =>
        have hev : parse_line now line a s = .error e := by
          simp [parse_line, hj, hmt, hmsg, hrv, hro, hit, hjp, hemp, husage, hcost]
        exact absurd (hev.symm.trans h) (by simp)
      | ok cost =>
        have hev : parse_line now line a s = .ok (some
          { timestamp := (match dictGet okvs "timestamp".data with
              | some (JValue.jstr tsStr) =>
                (datetime_fromisoformat (pyReplace tsStr "Z".data "+00:00".data)).getD now
              | _ => now)
            role := r
            agent := a
            session_id := s
            model := dictGet mkvs "model".data
            provider := dictGet mkvs "provider".data
            text := pyStrip joined
            cost := cost
            stop_reason := dictGet mkvs "stopReason".data
            raw := JValue.jobj okvs }) := by
          simp [parse_line, hj, hmt, hmsg, hrv, hro, hit, hjp, hemp, husage, hcost]
        have hrec := Option.some.inj (Except.ok.inj (hev.symm.trans h))
        refine ⟨okvs, mkvs, r, blocks, joined, rfl, hmsg, hrv, hit, hjp, ?_, ?_, ?_⟩
        · rw [← hrec]
        · rw [← hrec]
        · rw [← hrec]

lemma contentParts_map_chars (sC : Chars) :
    contentParts (sC.map (fun c => JValue.jstr [c])) = (sC.map (fun c => [c])).map JValue.jstr := by
  induction sC with
  | nil => rfl
  | cons c t ih => simp [contentParts, ih]

lemma partsStrs_map_jstr (ss : List Chars) : partsStrs (ss.map JValue.jstr) = some ss := by
  induction ss with
  | nil => rfl
  | cons s t ih => simp [partsStrs, ih]

lemma joinParts_map_jstr (ss : List Chars) : joinParts (ss.map JValue.jstr) = .ok (joinNl ss) := by
  simp [joinParts, partsStrs_map_jstr]

lemma partsStrs_textPieces : ∀ (bs : List JValue) (ss : List Chars),
    partsStrs (contentParts bs) = some ss → ss = textPieces bs := by
  intro bs
  induction bs with
  | nil =>
    intro ss h
    simp only [contentParts, partsStrs, Option.some.injEq] at h
    simp [textPieces, ← h]
  | cons b bs ih =>
    intro ss h
    cases b with
    | jobj bk =>
      cases ht : isTextBlock bk with
      | true =>
        simp only [contentParts, ht, if_true] at h
        cases hv : (dictGet bk "text".data).getD (JValue.jstr []) with
        | jstr sv =>
          rw [hv] at h
          simp only [partsStrs] at h
          cases hrest : partsStrs (contentParts bs) with
          | none => rw [hrest] at h; simp at h
          | some ss2 =>
            rw [hrest] at h
            simp only [Option.map_some', Option.some.injEq] at h
            subst h
            simp [textPieces, ht, hv, strOfJ, ih ss2 hrest]
        | jnull => rw [hv] at h; simp [partsStrs] at h
        | jbool b2 => rw [hv] at h; simp [partsStrs] at h
        | jnum n => rw [hv] at h; simp [partsStrs] at h
        | jarr xs => rw [hv] at h; simp [partsStrs] at h
        | jobj kvs => rw [hv] at h; simp [partsStrs] at h
      | false =>
        simp only [contentParts, ht, if_false] at h
        simp [textPieces, ht, ih ss h]
    | jstr s1 =>
      simp only [contentParts, partsStrs] at h
      cases hrest : partsStrs (contentParts bs) with
      | none => rw [hrest] at h; simp at h
      | some ss2 =>
        rw [hrest] at h
        simp only [Option.map_some', Option.some.injEq] at h
        subst h
        simp [textPieces, ih ss2 hrest]
    | jnull =>
      simp only [contentParts] at h
      simp [textPieces, ih ss h]
    | jbool b2 =>
      simp only [contentParts] at h
      simp [textPieces, ih ss h]
    | jnum n =>
      simp only [contentParts] at h
      simp [textPieces, ih ss h]
    | jarr xs =>
      simp only [contentParts] at h
      simp [textPieces, ih ss h]

/-- C5 amended: content extraction as the code performs it.  When the message
content is a sequence of blocks, a plain-string block contributes itself and a
type-text dict block contributes its text field, newline-joined and trimmed
(`textPieces`).  When the content is itself a plain string, the loop iterates
it character by character, so the record text is the characters joined by
newlines, trimmed — not the string itself trimmed. -/
theorem C5_amended : ∀ (now : PyDatetime) (line a sid : Chars)
    (okvs mkvs : List (Chars × JValue)) (m : ParsedMessage),
    json_loads line = some (JValue.jobj okvs) →
    (dictGet okvs "message".data).getD (JValue.jobj []) = JValue.jobj mkvs →
    parse_line now line a sid = .ok (some m) →
    (∀ sC, (dictGet mkvs "content".data).getD (JValue.jarr []) = JValue.jstr sC →
      m.text = pyStrip (joinNl (sC.map (fun c => [c])))) ∧
    (∀ bs, (dictGet mkvs "content".data).getD (JValue.jarr []) = JValue.jarr bs →
      m.text = pyStrip (joinNl (textPieces bs))) := by
  intro now line a s okvs mkvs m hj hmsg h
  obtain ⟨okvs2, mkvs2, r, blocks, joined, hj2, hmsg2, hrv, hit, hjp, htext, hrole, hts⟩ :=
    parse_line_ok_some_inv now line a s m h
  rw [hj] at hj2
  obtain rfl : okvs = okvs2 := JValue.jobj.inj (Option.some.inj hj2)
  rw [hmsg] at hmsg2
  obtain rfl : mkvs = mkvs2 := JValue.jobj.inj hmsg2
  constructor
  · intro sC hc
    rw [hc] at hit
    have hpi : pyIterJ (JValue.jstr sC) = .ok (sC.map (fun c => JValue.jstr [c])) := rfl
    have hb : sC.map (fun c => JValue.jstr [c]) = blocks :=
      Except.ok.inj (hpi.symm.trans hit)
    rw [← hb, contentParts_map_chars, joinParts_map_jstr] at hjp
    have hjoin : joinNl (sC.map (fun c => [c])) = joined := Except.ok.inj hjp
    rw [htext, ← hjoin]
  · intro bs hc
    rw [hc] at hit
    have hpi : pyIterJ (JValue.jarr bs) = .ok bs := rfl
    have hb : bs = blocks := Except.ok.inj (hpi.symm.trans hit)
    rw [← hb] at hjp
    unfold joinParts at hjp
    cases hps : partsStrs (contentParts bs) with
    | none => rw [hps] at hjp; exact absurd hjp (by simp)
    | some ss =>
      rw [hps] at hjp
      have hjoin : joinNl ss = joined := Except.ok.inj hjp
      have hss := partsStrs_textPieces bs ss hps
      rw [htext, ← hjoin, hss]

/-- C5 amended witness: the record parsed from the string-content line has
text equal to the characters of `ab` joined by newlines, trimmed. -/
theorem C5_amended_witness :
    m5w.text = pyStrip (joinNl (("ab".data).map (fun c => [c]))) :=
  (C5_amended now0 lineStrContent "ag".data "sid".data okvs5 mkvs5 m5w rfl rfl rfl).1
    "ab".data rfl

/-- C8 amended: every record's timestamp is aware (carries an offset) — the
aware current-utc instant when the timestamp member is missing, not a string,
or unparseable, and the parsed aware instant when the ISO string carries an
offset (a `Z` suffix is first normalized to `+00:00`) — except exactly when
the line carries a parseable ISO timestamp with no offset suffix, in which
case the stored instant is naive (`tz = none`). -/
theorem C8_amended : ∀ (now : PyDatetime) (line a sid : Chars) (m : ParsedMessage),
    now.tz = some 0 →
    parse_line now line a sid = .ok (some m) →
    m.timestamp.tz ≠ none ∨ NaiveIsoTimestamp line m.timestamp := by
  intro now line a s m hnow h
  obtain ⟨okvs, mkvs, r, blocks, joined, hj, hmsg, hrv, hit, hjp, htext, hrole, hts⟩ :=
    parse_line_ok_some_inv now line a s m h
  cases hg : dictGet okvs "timestamp".data with
  | none =>
    left
    simp only [hg] at hts
    rw [hts, hnow]
    simp
  | some v =>
    cases v with
    | jstr tsStr =>
      cases hf : datetime_fromisoformat (pyReplace tsStr "Z".data "+00:00".data) with
      | some d =>
        simp only [hg] at hts
        rw [hf] at hts
        simp only [Option.getD_some] at hts
        cases hdz : d.tz with
        | some o =>
          left
          rw [hts, hdz]
          simp
        | none =>
          right
          exact ⟨okvs, tsStr, hj, hg, by rw [hts]; exact hf, by rw [hts]; exact hdz⟩
      | none =>
        left
        simp only [hg] at hts
        rw [hf] at hts
        simp only [Option.getD_none] at hts
        rw [hts, hnow]
        simp
    | jnull =>
      left
      simp only [hg] at hts
      rw [hts, hnow]
      simp
    | jbool b =>
      left
      simp only [hg] at hts
      rw [hts, hnow]
      simp
    | jnum n =>
      left
      simp only [hg] at hts
      rw [hts, hnow]
      simp
    | jarr xs =>
      left
      simp only [hg] at hts
      rw [hts, hnow]
      simp
    | jobj kvs =>
      left
      simp only [hg] at hts
      rw [hts, hnow]
      simp

/-- C8 amended witness: a message line with no timestamp member gets the aware
current-utc instant, landing in the aware disjunct. -/
theorem C8_amended_witness :
    parse_line now0 lineNoTs "ag".data "sid".data = .ok (some m8w) ∧
    (m8w.timestamp.tz ≠ none ∨ NaiveIsoTimestamp lineNoTs m8w.timestamp) :=
  ⟨rfl, C8_amended now0 lineNoTs "ag".data "sid".data m8w rfl rfl⟩

lemma insSorted_perm (le : α → α → Bool) (x : α) :
    ∀ l : List α, (insSorted le x l).Perm (x :: l) := by
  intro l
  induction l with
  | nil => exact List.Perm.refl _
  | cons y ys ih =>
    by_cases hxy : le x y = true
    · simp [insSorted, hxy]
    · rw [show insSorted le x (y :: ys) =
          if le x y = true then x :: y :: ys else y :: insSorted le x ys from rfl,
        if_neg hxy]
      exact (ih.cons y).trans (List.Perm.swap x y ys)

lemma pySort_perm (le : α → α → Bool) : ∀ l : List α, (pySort le l).Perm l := by
  intro l
  induction l with
  | nil => exact List.Perm.refl _
  | cons x xs ih =>
    have h1 : pySort le (x :: xs) = insSorted le x (pySort le xs) := rfl
    rw [h1]
    exact (insSorted_perm le x (pySort le xs)).trans (ih.cons x)

lemma mem_insSorted (le : α → α → Bool) (x b : α) (l : List α) :
    b ∈ insSorted le x l ↔ b = x ∨ b ∈ l := by
  rw [(insSorted_perm le x l).mem_iff]
  simp

lemma insSorted_pairwise (le : α → α → Bool)
    (htot : ∀ a b, le a b = true ∨ le b a = true)
    (htrans : ∀ a b c, le a b = true → le b c = true → le a c = true) (x : α) :
    ∀ l : List α, l.Pairwise (fun a b => le a b = true) →
      (insSorted le x l).Pairwise (fun a b => le a b = true) := by
  intro l
  induction l with
  | nil => intro _; simp [insSorted]
  | cons y ys ih =>
    intro hl
    rw [List.pairwise_cons] at hl
    obtain ⟨hy, hys⟩ := hl
    by_cases hxy : le x y = true
    · rw [show insSorted le x (y :: ys) =
          if le x y = true then x :: y :: ys else y :: insSorted le x ys from rfl,
        if_pos hxy]
      rw [List.pairwise_cons]
      refine ⟨?_, ?_⟩
      · intro b hb
        rcases List.mem_cons.mp hb with rfl | hb2
        · exact hxy
        · exact htrans x y b hxy (hy b hb2)
      · rw [List.pairwise_cons]
        exact ⟨hy, hys⟩
    · rw [show insSorted le x (y :: ys) =
          if le x y = true then x :: y :: ys else y :: insSorted le x ys from rfl,
        if_neg hxy]
      rw [List.pairwise_cons]
      refine ⟨?_, ih hys⟩
      intro b hb
      rcases (mem_insSorted le x b ys).mp hb with rfl | hb2
      · rcases htot b y with h | h
        · exact absurd h hxy
        · exact h
      · exact hy b hb2

lemma pySort_pairwise (le : α → α → Bool)
    (htot : ∀ a b, le a b = true ∨ le b a = true)
    (htrans : ∀ a b c, le a b = true → le b c = true → le a c = true) :
    ∀ l : List α, (pySort le l).Pairwise (fun a b => le a b = true) := by
  intro l
  induction l with
  | nil => simp [pySort]
  | cons x xs ih =>
    have h1 : pySort le (x :: xs) = insSorted le x (pySort le xs) := rfl
    rw [h1]
    exact insSorted_pairwise le htot htrans x (pySort le xs) ih

lemma tsLe_total : ∀ a b : ParsedMessage, tsLe a b = true ∨ tsLe b a = true := by
  intro a b
  unfold tsLe
  rcases Int.le_total (tsKey a.timestamp) (tsKey b.timestamp) with h | h
  · left; exact decide_eq_true h
  · right; exact decide_eq_true h

lemma tsLe_trans : ∀ a b c : ParsedMessage,
    tsLe a b = true → tsLe b c = true → tsLe a c = true := by
  intro a b c hab hbc
  unfold tsLe at hab hbc ⊢
  rw [decide_eq_true_eq] at hab hbc
  exact decide_eq_true (le_trans hab hbc)

lemma collect_eq_all (now : PyDatetime) (n : Nat) :
    ∀ files : List SrcFile,
    (∀ f ∈ files,
      parseLines now f.agent (extract_session_id f.name) (tail_lines f.content (n * 3)) =
      parseLines now f.agent (extract_session_id f.name) (splitOnCh '\n' f.content)) →
    collectMsgs now n files = collectAll now files := by
  intro files
  induction files with
  | nil => intro _; rfl
  | cons f fs ih =>
    intro hw
    have hf := hw f (List.mem_cons_self _ _)
    have hrest := ih (fun g hg => hw g (List.mem_cons_of_mem _ hg))
    simp only [collectMsgs, collectAll, hf, hrest]

/-- C3 amended: `last_n` returns at most `n` records sorted ascending by
timestamp key; and when the tail window of every file retains all of that
file's parseable messages, the result is exactly the globally most-recent
`min n total` records — the last `n` of the stable ascending sort of all
messages, every omitted record keying at most every returned one. -/
theorem C3_amended : ∀ (now : PyDatetime) (files : List SrcFile) (n : Nat)
    (msgs : List ParsedMessage), 0 < n →
    show_last_n now files n = .ok msgs →
    msgs.length ≤ n ∧
    msgs.Pairwise (fun a b => tsKey a.timestamp ≤ tsKey b.timestamp) ∧
    (∀ all, (∀ f ∈ files,
        parseLines now f.agent (extract_session_id f.name) (tail_lines f.content (n * 3)) =
        parseLines now f.agent (extract_session_id f.name) (splitOnCh '\n' f.content)) →
      collectAll now files = .ok all →
      (pySort tsLe all).take (all.length - n) ++ msgs = pySort tsLe all ∧
      msgs.length = min n all.length ∧
      ∀ d ∈ (pySort tsLe all).take (all.length - n), ∀ m ∈ msgs,
        tsKey d.timestamp ≤ tsKey m.timestamp) := by
  intro now files n msgs hn h
  cases hc : collectMsgs now n files with
  | error e =>
    have : show_last_n now files n = .error e := by simp [show_last_n, hc]
    exact absurd (this.symm.trans h) (by simp)
  | ok all0 =>
    have hev : show_last_n now files n = .ok (pyNegSlice n (pySort tsLe all0)) := by
      simp [show_last_n, hc]
    have hmsgs : msgs = pyNegSlice n (pySort tsLe all0) :=
      (Except.ok.inj (hev.symm.trans h)).symm
    have hlen : (pySort tsLe all0).length = all0.length :=
      (pySort_perm tsLe all0).length_eq
    have hdrop : msgs = (pySort tsLe all0).drop ((pySort tsLe all0).length - n) := by
      rw [hmsgs]
      unfold pyNegSlice
      rw [if_neg (by omega)]
    have hpw : (pySort tsLe all0).Pairwise (fun a b => tsLe a b = true) :=
      pySort_pairwise tsLe tsLe_total tsLe_trans all0
    refine ⟨?_, ?_, ?_⟩
    · rw [hdrop, List.length_drop]
      omega
    · have hsub : msgs.Pairwise (fun a b => tsLe a b = true) := by
        rw [hdrop]
        exact hpw.sublist (List.drop_sublist _ _)
      exact hsub.imp (fun hab => by
        unfold tsLe at hab
        exact decide_eq_true_eq.mp hab)
    · intro all hw hall
      have hce := collect_eq_all now n files hw
      have h1 : Except.ok all = Except.ok all0 := hall.symm.trans (hce.symm.trans hc)
      have hae : all0 = all := (Except.ok.inj h1).symm
      subst hae
      have htd : (pySort tsLe all0).take (all0.length - n) ++ msgs = pySort tsLe all0 := by
        rw [hdrop, hlen]
        exact List.take_append_drop _ _
      refine ⟨htd, ?_, ?_⟩
      · rw [hdrop, List.length_drop, hlen]
        omega
      · intro d hd m hm
        have hcross := (List.pairwise_append.mp (htd ▸ hpw)).2.2
        have := hcross d hd m hm
        unfold tsLe at this
        exact decide_eq_true_eq.mp this

/-- C3 amended witness: one junk-only file, `n = 1`; the window loses nothing,
zero messages exist, and the returned list is empty and trivially the most
recent zero records. -/
theorem C3_amended_witness :
    (([] : List ParsedMessage)).length ≤ 1 ∧
    (([] : List ParsedMessage)).Pairwise (fun a b => tsKey a.timestamp ≤ tsKey b.timestamp) ∧
    ((pySort tsLe []).take (([] : List ParsedMessage).length - 1) ++ ([] : List ParsedMessage) =
      pySort tsLe [] ∧
      ([] : List ParsedMessage).length = min 1 ([] : List ParsedMessage).length ∧
      ∀ d ∈ (pySort tsLe ([] : List ParsedMessage)).take (([] : List ParsedMessage).length - 1),
        ∀ m ∈ ([] : List ParsedMessage), tsKey d.timestamp ≤ tsKey m.timestamp) := by
  have h := C3_amended now0 [fW] 1 [] (by decide) rfl
  refine ⟨h.1, h.2.1, ?_⟩
  exact h.2.2 [] (by
    intro f hf
    have : f = fW := List.mem_singleton.mp hf
    subst this
    rfl) rfl

end OpenClawCLI
